import Mathlib

/-!
# Verification of the MCP transport and dispatch layer

A shallow embedding of the MCP chatbot host's transport, framing, routing
and normalization code, together with proofs of the specification's claims
about it.

Python strings are modelled as `List Char` (the subprocess pipes are opened
in text mode, so all lengths and slices in the source are character counts).
JSON values exchanged with the `json` standard library are modelled by the
inductive type `Json` below; `json.dumps` / `json.loads` are modelled by
`dumpsL` / `jsonLoads` (compact serialization with the library's default
`", "` and `": "` separators and standard string escaping; floating-point
numbers are outside the model, and non-ASCII characters are kept literal,
which does not affect framing since lengths are counted in characters
throughout).
-/

/-- JSON whitespace characters (space, tab, newline, carriage return). -/
def wsChar (c : Char) : Bool :=
  c = ' ' || c = '\t' || c = '\n' || c = '\r'

/-- Decimal digit test. -/
def isDigitChar (c : Char) : Bool :=
  48 ≤ c.toNat && c.toNat ≤ 57

/-- Drop leading JSON whitespace. -/
def skipWs (cs : List Char) : List Char :=
  cs.dropWhile wsChar

/-- Fuelled digit extraction; `fuel ≥ n + 1` always suffices. -/
def natDigitsAux : Nat → Nat → List Char
  | 0, _ => []
  | fuel + 1, n =>
    if n < 10 then [Char.ofNat (48 + n)]
    else natDigitsAux fuel (n / 10) ++ [Char.ofNat (48 + n % 10)]

/-- Decimal digits of a natural number, most significant first
(the digits Python prints for a nonnegative `int`). -/
def natDigits (n : Nat) : List Char :=
  natDigitsAux (n + 1) n

/-- Numeric value of a list of decimal digit characters. -/
def valOfDigits (ds : List Char) : Nat :=
  ds.foldl (fun a c => 10 * a + (c.toNat - 48)) 0

/-- Lowercase hexadecimal digit for `n < 16`. -/
def hexChar (n : Nat) : Char :=
  if n < 10 then Char.ofNat (48 + n) else Char.ofNat (87 + n)

/-- Value of a hexadecimal digit character. -/
def hexVal (c : Char) : Option Nat :=
  if 48 ≤ c.toNat && c.toNat ≤ 57 then some (c.toNat - 48)
  else if 97 ≤ c.toNat && c.toNat ≤ 102 then some (c.toNat - 87)
  else if 65 ≤ c.toNat && c.toNat ≤ 70 then some (c.toNat - 55)
  else none

/-- Expect the literal characters `es` at the start of the input,
returning the remainder. -/
def expectChars : List Char → List Char → Option (List Char)
  | [], cs => some cs
  | _ :: _, [] => none
  | e :: es, c :: cs => if c = e then expectChars es cs else none

/-- Test that `l` starts with the literal `pre`. -/
def listStartsWith : List Char → List Char → Bool
  | [], _ => true
  | _ :: _, [] => false
  | p :: ps, c :: cs => c = p && listStartsWith ps cs

/-- Python `str.strip()`: remove leading and trailing whitespace. -/
def pyStrip (cs : List Char) : List Char :=
  ((cs.dropWhile wsChar).reverse.dropWhile wsChar).reverse

/-- Python `int(s)` on an already-stripped string, restricted to
nonnegative decimal literals (the only form the framing code produces). -/
def pyParseNat (cs : List Char) : Option Nat :=
  if cs ≠ [] && cs.all isDigitChar then some (valOfDigits cs) else none

/-- Model of the Python values exchanged through the `json` library:
`null`, booleans, integers, strings, lists and string-keyed dicts
(insertion ordered). -/
inductive Json where
  | null : Json
  | bool : Bool → Json
  | int : Int → Json
  | str : String → Json
  | arr : List Json → Json
  | obj : List (String × Json) → Json

/-- Lookup in a modelled Python dict (`d.get(k)` / `d[k]`). -/
def jGet (j : Json) (k : String) : Option Json :=
  match j with
  | .obj kvs => kvs.lookup k
  | _ => none

/-- The `json.dumps` escape for one character inside a string literal:
quote, backslash and control characters are escaped, everything else is
emitted literally. -/
def escapeChar (c : Char) : List Char :=
  if c = '"' then ['\\', '"']
  else if c = '\\' then ['\\', '\\']
  else if c = '\n' then ['\\', 'n']
  else if c = '\t' then ['\\', 't']
  else if c = '\r' then ['\\', 'r']
  else if c.toNat = 8 then ['\\', 'b']
  else if c.toNat = 12 then ['\\', 'f']
  else if c.toNat < 32 then
    ['\\', 'u', '0', '0', hexChar (c.toNat / 16), hexChar (c.toNat % 16)]
  else [c]

/-- Escape every character of a string body. -/
def escapeList : List Char → List Char
  | [] => []
  | c :: cs => escapeChar c ++ escapeList cs

/-- Serialized JSON string literal, with surrounding quotes. -/
def dumpStr (s : String) : List Char :=
  '"' :: escapeList s.data ++ ['"']

/-- Decimal rendering of a Python `int`. -/
def intDumps (i : Int) : List Char :=
  if i < 0 then '-' :: natDigits (-i).toNat else natDigits i.toNat

mutual

/-- Model of `json.dumps` with the default separators `", "` and `": "`
(the call `json.dumps(message)` in `MCPClient._send_message`). -/
def dumpsL : Json → List Char
  | .null => 'n' :: ['u', 'l', 'l']
  | .bool true => 't' :: ['r', 'u', 'e']
  | .bool false => 'f' :: ['a', 'l', 's', 'e']
  | .int i => intDumps i
  | .str s => dumpStr s
  | .arr [] => ['[', ']']
  | .arr (e :: es) => '[' :: (dumpsItems (e :: es) ++ [']'])
  | .obj [] => ['\x7b', '\x7d']
  | .obj (kv :: kvs) => '\x7b' :: (dumpsMembers (kv :: kvs) ++ ['\x7d'])
termination_by structural j => j

/-- Comma-space separated array elements. -/
def dumpsItems : List Json → List Char
  | [] => []
  | [e] => dumpsL e
  | e :: es => dumpsL e ++ ',' :: ' ' :: dumpsItems es
termination_by structural l => l

/-- Comma-space separated `"key": value` members. -/
def dumpsMembers : List (String × Json) → List Char
  | [] => []
  | [(k, v)] => dumpStr k ++ ':' :: ' ' :: dumpsL v
  | (k, v) :: kvs => dumpStr k ++ ':' :: ' ' :: dumpsL v ++ ',' :: ' ' :: dumpsMembers kvs
termination_by structural l => l
end

/-- Unescape a single short escape character following a backslash. -/
def unescapeChar (e : Char) : Option Char :=
  if e = '"' then some '"'
  else if e = '\\' then some '\\'
  else if e = '/' then some '/'
  else if e = 'n' then some '\n'
  else if e = 't' then some '\t'
  else if e = 'r' then some '\r'
  else if e = 'b' then some (Char.ofNat 8)
  else if e = 'f' then some (Char.ofNat 12)
  else none

mutual

/-- Parse the body of a JSON string literal after the opening quote,
returning the decoded characters and the input after the closing quote. -/
def parseStringBody : List Char → Option (List Char × List Char)
  | [] => none
  | c :: rest =>
    if c = '"' then some ([], rest)
    else if c = '\\' then parseEsc rest
    else (parseStringBody rest).map fun (l, r) => (c :: l, r)
termination_by structural l => l

/-- Parse one escape sequence after a backslash, then the remaining body. -/
def parseEsc : List Char → Option (List Char × List Char)
  | 'u' :: h1 :: h2 :: h3 :: h4 :: rest2 =>
    match hexVal h1, hexVal h2, hexVal h3, hexVal h4 with
    | some a, some b, some d1, some d2 =>
      (parseStringBody rest2).map fun (l, r) =>
        (Char.ofNat (((a * 16 + b) * 16 + d1) * 16 + d2) :: l, r)
    | _, _, _, _ => none
  | e :: rest2 =>
    match unescapeChar e with
    | some d => (parseStringBody rest2).map fun (l, r) => (d :: l, r)
    | none => none
  | [] => none
termination_by structural l => l
end

mutual

/-- Fuelled model of the value parser inside `json.loads` (integers only:
the framing layer never exchanges floating-point literals). -/
def parseVal : Nat → List Char → Option (Json × List Char)
  | 0, _ => none
  | fuel + 1, cs =>
    match cs with
    | [] => none
    | c :: rest =>
      if c = 'n' then (expectChars ['u', 'l', 'l'] rest).map fun r => (.null, r)
      else if c = 't' then (expectChars ['r', 'u', 'e'] rest).map fun r => (.bool true, r)
      else if c = 'f' then (expectChars ['a', 'l', 's', 'e'] rest).map fun r => (.bool false, r)
      else if c = '"' then (parseStringBody rest).map fun (l, r) => (.str (String.mk l), r)
      else if c = '[' then
        match skipWs rest with
        | [] => none
        | c2 :: r2 =>
          if c2 = ']' then some (.arr [], r2)
          else (parseItems fuel (c2 :: r2)).map fun (es, r) => (.arr es, r)
      else if c = '\x7b' then
        match skipWs rest with
        | [] => none
        | c2 :: r2 =>
          if c2 = '\x7d' then some (.obj [], r2)
          else (parseMembers fuel (c2 :: r2)).map fun (kvs, r) => (.obj kvs, r)
      else if c = '-' then
        let ds := rest.takeWhile isDigitChar
        if ds.isEmpty then none
        else some (.int (-(valOfDigits ds : Int)), rest.dropWhile isDigitChar)
      else if isDigitChar c then
        some (.int (valOfDigits ((c :: rest).takeWhile isDigitChar) : Int),
              (c :: rest).dropWhile isDigitChar)
      else none
termination_by structural fuel => fuel

/-- Parse the elements of a nonempty array after its `[`. -/
def parseItems : Nat → List Char → Option (List Json × List Char)
  | 0, _ => none
  | fuel + 1, cs =>
    match parseVal fuel cs with
    | none => none
    | some (v, r) =>
      match skipWs r with
      | [] => none
      | c2 :: r2 =>
        if c2 = ',' then (parseItems fuel (skipWs r2)).map fun (es, r3) => (v :: es, r3)
        else if c2 = ']' then some ([v], r2)
        else none
termination_by structural fuel => fuel

/-- Parse the members of a nonempty object after its opening brace. -/
def parseMembers : Nat → List Char → Option (List (String × Json) × List Char)
  | 0, _ => none
  | fuel + 1, cs =>
    match cs with
    | [] => none
    | c :: rest =>
      if c = '"' then
        match parseStringBody rest with
        | none => none
        | some (kcs, r1) =>
          match skipWs r1 with
          | [] => none
          | c2 :: r2 =>
            if c2 = ':' then
              match parseVal fuel (skipWs r2) with
              | none => none
              | some (v, r3) =>
                match skipWs r3 with
                | [] => none
                | c3 :: r4 =>
                  if c3 = ',' then
                    (parseMembers fuel (skipWs r4)).map fun (kvs, r5) =>
                      ((String.mk kcs, v) :: kvs, r5)
                  else if c3 = '\x7d' then some ([(String.mk kcs, v)], r4)
                  else none
            else none
      else none
termination_by structural fuel => fuel
end

/-- Model of `json.loads`: parse one value, requiring the whole input to be
consumed up to trailing whitespace. -/
def jsonLoads (s : String) : Option Json :=
  match parseVal (s.data.length + 1) (skipWs s.data) with
  | some (j, rest) => if skipWs rest = [] then some j else none
  | none => none

/-- The input after the value being parsed does not begin with a digit
(so a maximal-munch number parse stops exactly at the value boundary). -/
def nonDigitStart (cs : List Char) : Prop :=
  ∀ c, cs.head? = some c → isDigitChar c = false

/-- Characters that can begin a serialized JSON value: not whitespace and
none of the closing or separator characters. -/
def startChar (c : Char) : Prop :=
  wsChar c = false ∧ c ≠ ']' ∧ c ≠ '\x7d' ∧ c ≠ ',' ∧ c ≠ ':'

/-!
## The Content-Length framing of `MCPClient`

`_send_message` builds `"Content-Length: {len(json_str)}\r\n\r\n{json_str}"`
(the process pipes are text mode, so the length is a character count);
`_read_stdout` accumulates characters, cuts the buffer at the first
`"\r\n\r\n"`, scans the header lines for one starting with
`"Content-Length:"`, takes the text after the first colon, strips and
parses it, then reads exactly that many characters of body and parses them
as JSON. `decodeFrame` is the per-frame step of that loop; error branches
(which the reader logs and resynchronizes from) are modelled as `none`. -/

/-- Model of `MCPClient._send_message`: one encoded frame. -/
def encodeMessage (m : Json) : List Char :=
  "Content-Length: ".data ++ natDigits (dumpsL m).length ++
    ('\r' :: '\n' :: '\r' :: '\n' :: dumpsL m)

/-- Cut the buffer at the first `"\r\n\r\n"` (the `buffer.find` step of
`_read_stdout`), returning header and remainder. -/
def splitHeader : List Char → Option (List Char × List Char)
  | [] => none
  | c :: cs =>
    if c = '\r' && listStartsWith ['\n', '\r', '\n'] cs then some ([], cs.drop 3)
    else (splitHeader cs).map fun (h, r) => (c :: h, r)

/-- Fuelled split of a string into its `"\r\n"`-separated lines. -/
def linesCRLF : Nat → List Char → List (List Char)
  | 0, _ => []
  | _ + 1, [] => [[]]
  | fuel + 1, c :: cs =>
    if c = '\r' && listStartsWith ['\n'] cs then [] :: linesCRLF fuel (cs.drop 1)
    else
      match linesCRLF fuel cs with
      | [] => [[c]]
      | line :: lines => (c :: line) :: lines

/-- Python `header.split("\r\n")`. -/
def pyLines (cs : List Char) : List (List Char) :=
  linesCRLF (cs.length + 1) cs

/-- The first line starting with `"Content-Length:"`. -/
def findCL : List (List Char) → Option (List Char)
  | [] => none
  | line :: lines =>
    if listStartsWith ("Content-Length:".data) line then some line else findCL lines

/-- Python `line.split(":")[1]`: the text between the first and second colon. -/
def splitColon1 : List Char → Option (List Char)
  | [] => none
  | c :: cs =>
    if c = ':' then some (cs.takeWhile fun d => !(d == ':')) else splitColon1 cs

/-- The `content_length` extracted from a frame header by `_read_stdout`:
`0` when no `Content-Length` line is present (the loop's default), `none`
when `int(...)` would raise (the logged protocol-error path). -/
def contentLengthOf (header : List Char) : Option Nat :=
  match findCL (pyLines header) with
  | none => some 0
  | some line =>
    match splitColon1 line with
    | none => none
    | some seg => pyParseNat (pyStrip seg)

/-- One frame-decoding step of `_read_stdout`: cut at the header
terminator, read the advertised number of characters, parse them as JSON
and leave the remainder in the buffer. -/
def decodeFrame (buffer : List Char) : Option (Json × List Char) :=
  match splitHeader buffer with
  | none => none
  | some (header, afterHeader) =>
    match contentLengthOf header with
    | none => none
    | some n =>
      if n ≤ afterHeader.length then
        match jsonLoads (String.mk (afterHeader.take n)) with
        | some msg => some (msg, afterHeader.drop n)
        | none => none
      else none

/-!
## Request/response correlation of `MCPClient` (`client.py`)

`_wait_for_response` polls `response_queue` until the deadline: a response
whose `id` equals the awaited request id is returned; any other response is
re-enqueued at the back. The queue is modelled as a list with no concurrent
producer; `fuel` models the remaining polling budget.
-/

/-- The JSON-RPC request envelope built by `MCPClient.call` and
`MCPClient.initialize` (`{"jsonrpc": "2.0", "id": ..., "method": ...,
"params": ...}`). -/
def rpcRequest (rid : Int) (method : String) (params : Json) : Json :=
  .obj [("jsonrpc", .str "2.0"), ("id", .int rid), ("method", .str method),
        ("params", params)]

/-- The check `response.get("id") == request_id` in `_wait_for_response`. -/
def matchesId (r : Json) (n : Int) : Bool :=
  match jGet r "id" with
  | some (.int i) => i == n
  | _ => false

/-- Model of `MCPClient._wait_for_response`: take the next queued response; return
it if its id matches, otherwise put it back at the end of the queue and
keep polling. Returns the matching response and the queue state left for
other waiters; `none` models the timeout `RuntimeError`. -/
def waitForResponse : Nat → List Json → Int → Option (Json × List Json)
  | 0, _, _ => none
  | _ + 1, [], _ => none
  | fuel + 1, r :: rs, n =>
    if matchesId r n then some (r, rs)
    else waitForResponse fuel (rs ++ [r]) n

/-- Model of `StdioMCPClient._send_request`, receive side: read the next line of
stdout, JSON-parse it, raise on an `error` member, else return its
`result`. The request id argument is taken but never compared against the
response id. -/
def stdioReadResult (requestId : Int) (lines : List String) :
    Except String (Option Json) :=
  match requestId, lines with
  | _, [] => .error "No response from server"
  | _, line :: _ =>
    match jsonLoads line with
    | none => .error "json decode error"
    | some r =>
      match jGet r "error" with
      | some _ => .error "Server error"
      | none => .ok (jGet r "result")

/-!
## Lifecycle: `initialize` and `close`

`MCPClient.initialize` (`client.py:134`) returns `True` immediately when
`_initialized` is already set; otherwise it sends one `initialize` request
and waits for the matching response. `StdioMCPClient.initialize`
(`clients/stdio.py:28`) has no such guard: every call spawns a fresh
subprocess and performs the `initialize` and `tools/list` exchanges.
-/

/-- Mutable state of an `MCPClient`: the `_initialized` flag, the `_id`
counter and the requests written to the child's stdin. -/
structure MState where
  initializedFlag : Bool
  nextId : Int
  sent : List Json

/-- The `initialize` request body of `MCPClient.initialize`. -/
def initMessage (rid : Int) : Json :=
  rpcRequest rid "initialize" (.obj
    [("protocolVersion", .str "2024-11-05"),
     ("capabilities", .obj []),
     ("clientInfo", .obj [("name", .str "simple-client"),
                          ("version", .str "1.0.0")])])

/-- Model of `MCPClient.initialize`: a no-op returning `True` when already
initialized; otherwise allocate the next id, send the `initialize`
request, and succeed only on an error-free response (`response` abstracts
the `_wait_for_response` outcome; `.error` is the timeout). -/
def mcpClientInit (s : MState) (response : Except String Json) : MState × Bool :=
  if s.initializedFlag then (s, true)
  else
    let rid := s.nextId + 1
    let msg := initMessage rid
    match response with
    | .error _ => ({ s with nextId := rid, sent := s.sent ++ [msg] }, false)
    | .ok r =>
      match jGet r "error" with
      | some _ => ({ s with nextId := rid, sent := s.sent ++ [msg] }, false)
      | none =>
        ({ s with nextId := rid, sent := s.sent ++ [msg], initializedFlag := true }, true)

/-- Observable state of a `StdioMCPClient`: subprocesses spawned, the
`_next_id` counter, and the JSON-RPC methods sent. -/
structure SState where
  spawns : Nat
  nextId : Nat
  sentMethods : List String

/-- Model of `StdioMCPClient.initialize`, happy path: unconditionally spawn a new
subprocess and send the `initialize` and `tools/list` requests (each
`_send_request` bumps `_next_id`); there is no already-initialized
guard. -/
def stdioClientInit (s : SState) : SState :=
  { spawns := s.spawns + 1,
    nextId := s.nextId + 2,
    sentMethods := s.sentMethods ++ ["initialize", "tools/list"] }

/-- The primitive steps a `close` implementation performs on the child
process. -/
inductive CloseAction where
  | terminate
  | waitBounded (seconds : Nat)
  | kill
  | waitUnbounded
deriving DecidableEq

/-- Model of `StdioMCPClient.close`: `terminate()`, await exit for at most 5
seconds; if that times out and the process is still running, `kill()` it
and await the killed process. -/
def stdioClose (exitsInGrace : Bool) : List CloseAction :=
  if exitsInGrace then [.terminate, .waitBounded 5]
  else [.terminate, .waitBounded 5, .kill, .waitUnbounded]

/-- Model of `MCPClient.close`: `terminate()` then `wait()` with no timeout and no
kill fallback. -/
def mcpClose : List CloseAction := [.terminate, .waitUnbounded]

/-- No unbounded wait happens before the process has been force-killed
(after `kill()` the wait is on a SIGKILLed process). -/
def noHangBeforeKill : List CloseAction → Bool
  | [] => true
  | .kill :: _ => true
  | .waitUnbounded :: _ => false
  | _ :: rest => noHangBeforeKill rest

/-- Grace-then-force: termination is requested first, and the close never
waits unboundedly on a process that has not been force-killed. -/
def graceThenForce (as : List CloseAction) : Bool :=
  (as.head? == some .terminate) && noHangBeforeKill as

/-!
## Router / registry (`core/chatbot.py`)
-/

/-- Behavior of one registered client's `call_tool`: a result string or a
raised exception carrying its message. -/
def Client : Type := String → List (String × Json) → Except String String

/-- Model of `ModularMCPChatbot.call_mcp_tool`: an unknown server name yields the
`"Unknown server: ..."` text; otherwise the client is invoked and any
exception is caught and rendered as an `"Error calling ..."` text. The
second component records the `(server, tool)` invocations actually
forwarded to a client — the I/O this dispatch performs. -/
def callMCPTool (mcps : List (String × Client)) (server tool : String)
    (params : List (String × Json)) : String × List (String × String) :=
  match mcps.lookup server with
  | none => ("Unknown server: " ++ server, [])
  | some c =>
    match c tool params with
    | .ok r => (r, [(server, tool)])
    | .error e => ("Error calling " ++ server ++ ":" ++ tool ++ ": " ++ e, [(server, tool)])

/-- Python dict assignment `d[k] = v`: replace in place if the key exists,
else append the new binding. -/
def dictSet {α : Type} : List (String × α) → String → α → List (String × α)
  | [], k, v => [(k, v)]
  | (k', v') :: rest, k, v =>
    if k' = k then (k', v) :: rest else (k', v') :: dictSet rest k v

/-- The registry update of `ModularMCPChatbot._load_single_mcp` once a
client has connected: the unconditional `self.mcps[name] = {...}` — no
duplicate-name check of any kind. -/
def loadSingleMCP {α : Type} (mcps : List (String × α)) (name : String)
    (client : α) : List (String × α) :=
  dictSet mcps name client

/-- The constant `MAX_RESULT_LENGTH` from `core/config.py`. -/
def MAX_RESULT_LENGTH : Nat := 500

/-- The tool-result truncation in
`ModularMCPChatbot.call_anthropic_with_tools`:
`if len(tool_result) > MAX_RESULT_LENGTH: tool_result =
tool_result[:MAX_RESULT_LENGTH] + "..."` (strings as char lists). -/
def truncateToolResult (toolResult : List Char) : List Char :=
  if MAX_RESULT_LENGTH < toolResult.length then
    toolResult.take MAX_RESULT_LENGTH ++ "...".data
  else toolResult

/-!
## Result normalization (`clients/fastmcp.py`, `clients/http.py`)
-/

mutual

/-- Model of Python `repr` on JSON-shaped values (used for the
`str(result)` fallbacks; single quotes around strings, `None`/`True`/
`False` spellings; inner quote escaping is not modelled). -/
def pyRepr : Json → String
  | .null => "None"
  | .bool true => "True"
  | .bool false => "False"
  | .int i => String.mk (intDumps i)
  | .str s => "\x27" ++ s ++ "\x27"
  | .arr [] => "[]"
  | .arr (e :: es) => "[" ++ pyReprItems (e :: es) ++ "]"
  | .obj [] => "\x7b\x7d"
  | .obj (kv :: kvs) => "\x7b" ++ pyReprMembers (kv :: kvs) ++ "\x7d"
termination_by structural j => j

/-- Comma-separated `repr` of list elements. -/
def pyReprItems : List Json → String
  | [] => ""
  | [e] => pyRepr e
  | e :: es => pyRepr e ++ ", " ++ pyReprItems es
termination_by structural l => l

/-- Comma-separated `repr` of dict members. -/
def pyReprMembers : List (String × Json) → String
  | [] => ""
  | [(k, v)] => "\x27" ++ k ++ "\x27: " ++ pyRepr v
  | (k, v) :: kvs => "\x27" ++ k ++ "\x27: " ++ pyRepr v ++ ", " ++ pyReprMembers kvs
termination_by structural l => l
end

/-- Python `str()` on a JSON-shaped value: a string renders as itself,
anything else as its `repr`. -/
def pyStrTop (j : Json) : String :=
  match j with
  | .str s => s
  | _ => pyRepr j

/-- Fuelled body of `decodeUtf8Ignore`; `fuel ≥ length + 1` suffices. -/
def decodeUtf8IgnoreAux : Nat → List Nat → List Char
  | 0, _ => []
  | _ + 1, [] => []
  | fuel + 1, b :: rest =>
    if b < 0x80 then Char.ofNat b :: decodeUtf8IgnoreAux fuel rest
    else if 0xC2 ≤ b ∧ b ≤ 0xDF then
      match rest with
      | b2 :: rest2 =>
        if 0x80 ≤ b2 ∧ b2 ≤ 0xBF then
          Char.ofNat ((b - 0xC0) * 64 + (b2 - 0x80)) :: decodeUtf8IgnoreAux fuel rest2
        else decodeUtf8IgnoreAux fuel rest
      | [] => []
    else if 0xE0 ≤ b ∧ b ≤ 0xEF then
      match rest with
      | b2 :: b3 :: rest3 =>
        if (0x80 ≤ b2 ∧ b2 ≤ 0xBF) ∧ (0x80 ≤ b3 ∧ b3 ≤ 0xBF) then
          Char.ofNat ((b - 0xE0) * 4096 + (b2 - 0x80) * 64 + (b3 - 0x80)) ::
            decodeUtf8IgnoreAux fuel rest3
        else decodeUtf8IgnoreAux fuel rest
      | _ => decodeUtf8IgnoreAux fuel rest
    else if 0xF0 ≤ b ∧ b ≤ 0xF4 then
      match rest with
      | b2 :: b3 :: b4 :: rest4 =>
        if (0x80 ≤ b2 ∧ b2 ≤ 0xBF) ∧ (0x80 ≤ b3 ∧ b3 ≤ 0xBF) ∧ (0x80 ≤ b4 ∧ b4 ≤ 0xBF) then
          Char.ofNat ((b - 0xF0) * 262144 + (b2 - 0x80) * 4096 + (b3 - 0x80) * 64 +
            (b4 - 0x80)) :: decodeUtf8IgnoreAux fuel rest4
        else decodeUtf8IgnoreAux fuel rest
      | _ => decodeUtf8IgnoreAux fuel rest
    else decodeUtf8IgnoreAux fuel rest

/-- Model of `bytes.decode("utf-8", errors="ignore")`: decode UTF-8, silently
skipping undecodable bytes (a model of the external codec; continuation
bytes are checked against the uniform `0x80..0xBF` range). -/
def decodeUtf8Ignore (bs : List Nat) : List Char :=
  decodeUtf8IgnoreAux (bs.length + 1) bs

/-- The result values `FastMCPClient._normalize_result` distinguishes:
`None`, an object carrying a `content` block list, an object carrying
`data`, raw bytes, a plain string, or any other JSON-serializable
value. -/
inductive FastRes where
  | pynone
  | content (blocks : List Json)
  | withData (d : Json)
  | bytes (bs : List Nat)
  | pystr (s : String)
  | other (j : Json)

/-- One block of the `content` loop (lines 118–128 of
`clients/fastmcp.py`): a dict block's `text` member when present (a
non-string `text` would make the later `"\n".join` raise, modelled as
`none`), else the block serialized by `json.dumps`. -/
def fastmcpBlockPart (b : Json) : Option String :=
  match b with
  | .obj kvs =>
    match kvs.lookup "text" with
    | some (.str t) => some t
    | some _ => none
    | none => some (String.mk (dumpsL (.obj kvs)))
  | _ => some (String.mk (dumpsL b))

/-- All block parts, in list order. -/
def fastmcpParts : List Json → Option (List String)
  | [] => some []
  | b :: bs =>
    match fastmcpBlockPart b, fastmcpParts bs with
    | some p, some ps => some (p :: ps)
    | _, _ => none

/-- Python `"\n".join(parts)`. -/
def joinNL : List String → String
  | [] => ""
  | [s] => s
  | s :: rest => s ++ "\n" ++ joinNL rest

/-- Model of `FastMCPClient._normalize_result`: `None` becomes `""`; a nonempty
`content` list becomes its parts joined by newlines; a `data` payload is
serialized to JSON; bytes are decoded with undecodable bytes ignored;
strings pass through; anything else is serialized to JSON. An empty
`content` list falls through to attribute probing on the result object,
outside this value model (`none`). -/
def fastmcpNormalize : FastRes → Option String
  | .pynone => some ""
  | .content [] => none
  | .content (b :: bs) => (fastmcpParts (b :: bs)).map joinNL
  | .withData d => some (String.mk (dumpsL d))
  | .bytes bs => some (String.mk (decodeUtf8Ignore bs))
  | .pystr s => some s
  | .other j => some (String.mk (dumpsL j))

/-- Model of `HTTPMCPClient._process_result`: a dict result with a nonempty
`content` list yields only `content[0].get("text", str(result))`; every
other shape is rendered with `str(result)`. A non-dict first block (whose
`.get` would raise) and a non-string `text` value are modelled as
`none`. -/
def httpProcessResult (result : Json) : Option String :=
  match result with
  | .obj kvs =>
    match kvs.lookup "content" with
    | some (.arr (b :: _)) =>
      match b with
      | .obj bkvs =>
        match bkvs.lookup "text" with
        | some (.str t) => some t
        | some _ => none
        | none => some (pyStrTop result)
      | _ => none
    | some (.arr []) => some (pyStrTop result)
    | some _ => none
    | none => some (pyStrTop result)
  | _ => some (pyStrTop result)

/-- A client whose `call_tool` always raises (for concrete registry
scenarios). -/
def errClient : Client := fun _ _ => .error "boom"

/-! ## Properties and claims -/

example : dumpsL (.obj [("a", .int 1), ("b", .arr [.int (-2), .str "x"])]) =
    "\x7b\"a\": 1, \"b\": [-2, \"x\"]\x7d".data := by decide

example : jsonLoads (String.mk (dumpsL
    (.obj [("a", .int 1), ("b", .arr [.int (-2), .str "x\n"])]))) =
    some (.obj [("a", .int 1), ("b", .arr [.int (-2), .str "x\n"])]) := by rfl

theorem natDigitsAux_spec : ∀ fuel n, n < fuel →
    natDigitsAux fuel n ≠ [] ∧ (∀ c ∈ natDigitsAux fuel n, isDigitChar c = true) ∧
      valOfDigits (natDigitsAux fuel n) = n := by
  intro fuel
  induction fuel with
  | zero => intro n h; omega
  | succ fuel ih =>
    intro n h
    by_cases h10 : n < 10
    · have hc : (Char.ofNat (48 + n)).toNat = 48 + n := by
        have hall : ∀ m, m < 10 → (Char.ofNat (48 + m)).toNat = 48 + m := by decide
        exact hall n h10
      refine ⟨by simp [natDigitsAux, h10], ?_, ?_⟩
      · intro c hcmem
        simp only [natDigitsAux, if_pos h10, List.mem_singleton] at hcmem
        subst hcmem
        simp only [isDigitChar, hc, Bool.and_eq_true, decide_eq_true_eq]
        omega
      · simp [natDigitsAux, h10, valOfDigits, hc]
    · have hdiv : n / 10 < fuel := by
        have hlt : n / 10 < n := Nat.div_lt_self (by omega) (by omega)
        omega
      obtain ⟨hne, hdig, hval⟩ := ih (n / 10) hdiv
      have hc : (Char.ofNat (48 + n % 10)).toNat = 48 + n % 10 := by
        have hall : ∀ m, m < 10 → (Char.ofNat (48 + m)).toNat = 48 + m := by decide
        exact hall (n % 10) (by omega)
      refine ⟨by simp [natDigitsAux, h10], ?_, ?_⟩
      · intro c hcmem
        simp only [natDigitsAux, if_neg h10, List.mem_append, List.mem_singleton] at hcmem
        rcases hcmem with hcmem | hcmem
        · exact hdig c hcmem
        · subst hcmem
          simp only [isDigitChar, hc, Bool.and_eq_true, decide_eq_true_eq]
          omega
      · simp only [natDigitsAux, if_neg h10, valOfDigits, List.foldl_append]
        simp only [valOfDigits] at hval
        simp [hval, hc]
        omega

theorem natDigits_ne_nil (n : Nat) : natDigits n ≠ [] :=
  (natDigitsAux_spec (n + 1) n (by omega)).1

theorem natDigits_digits (n : Nat) : ∀ c ∈ natDigits n, isDigitChar c = true :=
  (natDigitsAux_spec (n + 1) n (by omega)).2.1

theorem valOfDigits_natDigits (n : Nat) : valOfDigits (natDigits n) = n :=
  (natDigitsAux_spec (n + 1) n (by omega)).2.2

theorem nonDigitStart_nil : nonDigitStart [] := by
  intro c h
  cases h

theorem nonDigitStart_cons {c : Char} {cs : List Char} (h : isDigitChar c = false) :
    nonDigitStart (c :: cs) := by
  intro d hd
  cases hd
  exact h

theorem takeWhile_append_all {p : Char → Bool} : ∀ (l rest : List Char),
    (∀ c ∈ l, p c = true) → (∀ c, rest.head? = some c → p c = false) →
    (l ++ rest).takeWhile p = l ∧ (l ++ rest).dropWhile p = rest := by
  intro l
  induction l with
  | nil =>
    intro rest _ hr
    cases rest with
    | nil => simp
    | cons c t =>
      have hc := hr c rfl
      simp [List.takeWhile_cons, List.dropWhile_cons, hc]
  | cons c l ih =>
    intro rest hl hr
    have hc := hl c (by simp)
    obtain ⟨h1, h2⟩ := ih rest (fun d hd => hl d (by simp [hd])) hr
    simp [List.takeWhile_cons, List.dropWhile_cons, hc, h1, h2]

theorem not_ws_of_digit {c : Char} (h : isDigitChar c = true) : wsChar c = false := by
  have e1 : c ≠ ' ' := by rintro rfl; exact absurd h (by decide)
  have e2 : c ≠ '\t' := by rintro rfl; exact absurd h (by decide)
  have e3 : c ≠ '\n' := by rintro rfl; exact absurd h (by decide)
  have e4 : c ≠ '\r' := by rintro rfl; exact absurd h (by decide)
  simp [wsChar, e1, e2, e3, e4]

theorem startChar_of_digit {c : Char} (h : isDigitChar c = true) : startChar c := by
  refine ⟨not_ws_of_digit h, ?_, ?_, ?_, ?_⟩ <;>
    (rintro rfl; exact absurd h (by decide))

theorem skipWs_cons_of {c : Char} (h : wsChar c = false) (cs : List Char) :
    skipWs (c :: cs) = c :: cs := by
  simp [skipWs, List.dropWhile_cons, h]

theorem skipWs_cons_ws {c : Char} (h : wsChar c = true) (cs : List Char) :
    skipWs (c :: cs) = skipWs cs := by
  simp [skipWs, List.dropWhile_cons, h]

theorem expectChars_self : ∀ (es rest : List Char), expectChars es (es ++ rest) = some rest := by
  intro es
  induction es with
  | nil => intro rest; rfl
  | cons e es ih => intro rest; simp [expectChars, ih]

theorem hexVal_hexChar : ∀ n, n < 16 → hexVal (hexChar n) = some n := by decide

theorem parseStringBody_escape : ∀ (l rest : List Char),
    parseStringBody (escapeList l ++ '"' :: rest) = some (l, rest) := by
  intro l
  induction l with
  | nil => intro rest; simp [escapeList, parseStringBody]
  | cons c l ih =>
    intro rest
    show parseStringBody ((escapeChar c ++ escapeList l) ++ '"' :: rest) = _
    rw [List.append_assoc]
    unfold escapeChar
    by_cases h1 : c = '"'
    · subst h1; simp [parseStringBody, parseEsc, unescapeChar, ih]
    by_cases h2 : c = '\\'
    · subst h2; simp [parseStringBody, parseEsc, unescapeChar, ih, h1]
    by_cases h3 : c = '\n'
    · subst h3; simp [parseStringBody, parseEsc, unescapeChar, ih, h1, h2]
    by_cases h4 : c = '\t'
    · subst h4; simp [parseStringBody, parseEsc, unescapeChar, ih, h1, h2, h3]
    by_cases h5 : c = '\r'
    · subst h5; simp [parseStringBody, parseEsc, unescapeChar, ih, h1, h2, h3, h4]
    by_cases h6 : c.toNat = 8
    · have hc : Char.ofNat 8 = c := by rw [← h6]; exact Char.ofNat_toNat c
      simp only [if_neg h1, if_neg h2, if_neg h3, if_neg h4, if_neg h5, if_pos h6,
        List.cons_append, List.nil_append]
      simp [parseStringBody, parseEsc, unescapeChar, ih] <;> exact hc
    by_cases h7 : c.toNat = 12
    · have hc : Char.ofNat 12 = c := by rw [← h7]; exact Char.ofNat_toNat c
      simp only [if_neg h1, if_neg h2, if_neg h3, if_neg h4, if_neg h5, if_neg h6,
        if_pos h7, List.cons_append, List.nil_append]
      simp [parseStringBody, parseEsc, unescapeChar, ih] <;> exact hc
    by_cases h8 : c.toNat < 32
    · have hdiv : hexVal (hexChar (c.toNat / 16)) = some (c.toNat / 16) :=
        hexVal_hexChar _ (by omega)
      have hmod : hexVal (hexChar (c.toNat % 16)) = some (c.toNat % 16) :=
        hexVal_hexChar _ (by omega)
      have h0 : hexVal '0' = some 0 := by decide
      simp only [if_neg h1, if_neg h2, if_neg h3, if_neg h4, if_neg h5,
        if_neg h6, if_neg h7, if_pos h8, List.cons_append, List.nil_append]
      simp [parseStringBody, parseEsc, h0, hdiv, hmod, ih]
      have harith : c.toNat / 16 * 16 + c.toNat % 16 = c.toNat := by omega
      rw [harith, Char.ofNat_toNat]
    · simp [h1, h2, h3, h4, h5, h6, h7, h8, parseStringBody, ih]

theorem dumps_ne_nil : ∀ j : Json, dumpsL j ≠ [] := by
  intro j
  cases j with
  | null => simp [dumpsL]
  | bool b => cases b <;> simp [dumpsL]
  | int i =>
    simp only [dumpsL, intDumps]
    by_cases h : i < 0
    · simp [h]
    · simp [h, natDigits_ne_nil]
  | str s => simp [dumpsL, dumpStr]
  | arr es => cases es <;> simp [dumpsL]
  | obj kvs => cases kvs <;> simp [dumpsL]

theorem startChar_mk {c : Char} (h1 : wsChar c = false) (h2 : c ≠ ']')
    (h3 : c ≠ '\x7d') (h4 : c ≠ ',') (h5 : c ≠ ':') : startChar c :=
  ⟨h1, h2, h3, h4, h5⟩

theorem dumps_start : ∀ j : Json, ∃ c t, dumpsL j = c :: t ∧ startChar c := by
  intro j
  cases j with
  | null =>
    exact ⟨'n', _, rfl, startChar_mk (by decide) (by decide) (by decide) (by decide) (by decide)⟩
  | bool b =>
    cases b with
    | false =>
      exact ⟨'f', _, rfl, startChar_mk (by decide) (by decide) (by decide) (by decide) (by decide)⟩
    | true =>
      exact ⟨'t', _, rfl, startChar_mk (by decide) (by decide) (by decide) (by decide) (by decide)⟩
  | int i =>
    by_cases h : i < 0
    · exact ⟨'-', natDigits (-i).toNat, by simp [dumpsL, intDumps, h],
        startChar_mk (by decide) (by decide) (by decide) (by decide) (by decide)⟩
    · obtain ⟨d, t, hdt⟩ := List.exists_cons_of_ne_nil (natDigits_ne_nil i.toNat)
      have hd : isDigitChar d = true := by
        apply natDigits_digits
        rw [hdt]
        simp
      exact ⟨d, t, by simp [dumpsL, intDumps, h, hdt], startChar_of_digit hd⟩
  | str s =>
    exact ⟨'"', _, rfl, startChar_mk (by decide) (by decide) (by decide) (by decide) (by decide)⟩
  | arr es =>
    cases es with
    | nil =>
      exact ⟨'[', _, rfl, startChar_mk (by decide) (by decide) (by decide) (by decide) (by decide)⟩
    | cons e es' =>
      exact ⟨'[', _, rfl, startChar_mk (by decide) (by decide) (by decide) (by decide) (by decide)⟩
  | obj kvs =>
    cases kvs with
    | nil =>
      exact ⟨'\x7b', _, rfl,
        startChar_mk (by decide) (by decide) (by decide) (by decide) (by decide)⟩
    | cons kv kvs' =>
      exact ⟨'\x7b', _, rfl,
        startChar_mk (by decide) (by decide) (by decide) (by decide) (by decide)⟩

theorem dumpsItems_start : ∀ (e : Json) (es : List Json),
    ∃ c t, dumpsItems (e :: es) = c :: t ∧ startChar c := by
  intro e es
  obtain ⟨c, t, hct, hs⟩ := dumps_start e
  cases es with
  | nil => exact ⟨c, t, by simp [dumpsItems, hct], hs⟩
  | cons e2 es' =>
    exact ⟨c, t ++ ',' :: ' ' :: dumpsItems (e2 :: es'), by simp [dumpsItems, hct], hs⟩

theorem dumpsMembers_start : ∀ (k : String) (v : Json) (kvs : List (String × Json)),
    ∃ t, dumpsMembers ((k, v) :: kvs) = '"' :: t := by
  intro k v kvs
  cases kvs with
  | nil =>
    exact ⟨escapeList k.data ++ '"' :: ':' :: ' ' :: dumpsL v, by simp [dumpsMembers, dumpStr]⟩
  | cons kv2 kvs' =>
    exact ⟨escapeList k.data ++ '"' :: ':' :: ' ' ::
      (dumpsL v ++ ',' :: ' ' :: dumpsMembers (kv2 :: kvs')), by simp [dumpsMembers, dumpStr]⟩

theorem skipWs_append_start {l : List Char} (x : List Char) (c : Char) (t : List Char)
    (h : l = c :: t) (hws : wsChar c = false) :
    skipWs (l ++ x) = c :: (t ++ x) := by
  rw [h, List.cons_append, skipWs_cons_of hws]

theorem parseVal_digit (fuel : Nat) (c : Char) (cs : List Char)
    (h : isDigitChar c = true) :
    parseVal (fuel + 1) (c :: cs) =
      some (.int (valOfDigits ((c :: cs).takeWhile isDigitChar) : Int),
            (c :: cs).dropWhile isDigitChar) := by
  have hn : c ≠ 'n' := by rintro rfl; exact absurd h (by decide)
  have ht : c ≠ 't' := by rintro rfl; exact absurd h (by decide)
  have hf : c ≠ 'f' := by rintro rfl; exact absurd h (by decide)
  have hq : c ≠ '"' := by rintro rfl; exact absurd h (by decide)
  have hl : c ≠ '[' := by rintro rfl; exact absurd h (by decide)
  have hb : c ≠ '\x7b' := by rintro rfl; exact absurd h (by decide)
  have hm : c ≠ '-' := by rintro rfl; exact absurd h (by decide)
  simp [parseVal, hn, ht, hf, hq, hl, hb, hm, h]

/-- The parser is a left inverse of the serializer: a serialized value
followed by any non-digit-starting remainder parses back exactly, at any
fuel exceeding the serialized length. -/
theorem parse_dumps_round : ∀ fuel : Nat,
    (∀ j rest, (dumpsL j).length < fuel → nonDigitStart rest →
      parseVal fuel (dumpsL j ++ rest) = some (j, rest)) ∧
    (∀ e es rest, (dumpsItems (e :: es)).length + 2 ≤ fuel →
      parseItems fuel (dumpsItems (e :: es) ++ ']' :: rest) = some (e :: es, rest)) ∧
    (∀ k v kvs rest, (dumpsMembers ((k, v) :: kvs)).length + 2 ≤ fuel →
      parseMembers fuel (dumpsMembers ((k, v) :: kvs) ++ '\x7d' :: rest) =
        some ((k, v) :: kvs, rest)) := by
  intro fuel
  induction fuel with
  | zero =>
    refine ⟨?_, ?_, ?_⟩
    · intro j rest h _; omega
    · intro e es rest h; omega
    · intro k v kvs rest h; omega
  | succ fuel ih =>
    obtain ⟨P, Q, R⟩ := ih
    refine ⟨?_, ?_, ?_⟩
    · intro j rest hlen hnd
      cases j with
      | null => simp [dumpsL, parseVal, expectChars]
      | bool b => cases b <;> simp [dumpsL, parseVal, expectChars]
      | int i =>
        by_cases hneg : i < 0
        · simp only [dumpsL, intDumps]
          rw [if_pos hneg, List.cons_append]
          obtain ⟨htake, hdrop⟩ :=
            takeWhile_append_all (natDigits (-i).toNat) rest (natDigits_digits _) hnd
          obtain ⟨d, t, hdt⟩ := List.exists_cons_of_ne_nil (natDigits_ne_nil (-i).toNat)
          have hne : (natDigits ((-i).toNat)).isEmpty = false := by rw [hdt]; rfl
          simp [parseVal, htake, hdrop, hne, valOfDigits_natDigits]
          omega
        · simp only [dumpsL, intDumps]
          rw [if_neg hneg]
          obtain ⟨htake, hdrop⟩ :=
            takeWhile_append_all (natDigits i.toNat) rest (natDigits_digits _) hnd
          obtain ⟨d, t, hdt⟩ := List.exists_cons_of_ne_nil (natDigits_ne_nil i.toNat)
          have hd : isDigitChar d = true := by
            apply natDigits_digits
            rw [hdt]; simp
          rw [hdt, List.cons_append, parseVal_digit fuel d (t ++ rest) hd,
            ← List.cons_append, ← hdt, htake, hdrop, valOfDigits_natDigits]
          have : (i.toNat : Int) = i := by omega
          rw [this]
      | str s =>
        have hmk : String.mk s.data = s := rfl
        simp [dumpsL, dumpStr, parseVal, parseStringBody_escape, hmk]
      | arr es =>
        cases es with
        | nil => simp [dumpsL, parseVal, skipWs_cons_of (by decide : wsChar ']' = false)]
        | cons e es' =>
          obtain ⟨c0, t0, h0, hs0⟩ := dumpsItems_start e es'
          have hlen' : (dumpsItems (e :: es')).length + 2 ≤ fuel := by
            simp only [dumpsL, List.length_cons, List.length_append] at hlen
            omega
          have hq := Q e es' rest hlen'
          have hq' : parseItems fuel (c0 :: (t0 ++ ']' :: rest)) = some (e :: es', rest) := by
            rw [← List.cons_append, ← h0]; exact hq
          have hskip : skipWs (dumpsItems (e :: es') ++ ']' :: rest) =
              c0 :: (t0 ++ ']' :: rest) :=
            skipWs_append_start _ c0 t0 h0 hs0.1
          simp [dumpsL, parseVal, hskip, hs0.2.1, hq']
      | obj kvs =>
        cases kvs with
        | nil => simp [dumpsL, parseVal, skipWs_cons_of (by decide : wsChar '\x7d' = false)]
        | cons kv kvs' =>
          obtain ⟨k, v⟩ := kv
          obtain ⟨t0, h0⟩ := dumpsMembers_start k v kvs'
          have hlen' : (dumpsMembers ((k, v) :: kvs')).length + 2 ≤ fuel := by
            simp only [dumpsL, List.length_cons, List.length_append] at hlen
            omega
          have hr := R k v kvs' rest hlen'
          have hr' : parseMembers fuel ('"' :: (t0 ++ '\x7d' :: rest)) =
              some ((k, v) :: kvs', rest) := by
            rw [← List.cons_append, ← h0]; exact hr
          have hskip : skipWs (dumpsMembers ((k, v) :: kvs') ++ '\x7d' :: rest) =
              '"' :: (t0 ++ '\x7d' :: rest) :=
            skipWs_append_start _ '"' t0 h0 (by decide)
          simp [dumpsL, parseVal, hskip, hr']
    · intro e es rest hfuel
      cases es with
      | nil =>
        have hlen : (dumpsL e).length < fuel := by
          simp only [dumpsItems] at hfuel; omega
        have hp := P e (']' :: rest) hlen (nonDigitStart_cons (by decide))
        simp [dumpsItems, parseItems, hp,
          skipWs_cons_of (by decide : wsChar ']' = false)]
      | cons e2 es'' =>
        obtain ⟨c0, t0, h0, hs0⟩ := dumpsItems_start e2 es''
        have hlenE : (dumpsL e).length < fuel := by
          simp only [dumpsItems, List.length_append, List.length_cons] at hfuel
          omega
        have hfuel' : (dumpsItems (e2 :: es'')).length + 2 ≤ fuel := by
          simp only [dumpsItems, List.length_append, List.length_cons] at hfuel
          omega
        have hp := P e (',' :: ' ' :: (dumpsItems (e2 :: es'') ++ ']' :: rest)) hlenE
          (nonDigitStart_cons (by decide))
        have hq := Q e2 es'' rest hfuel'
        have hq' : parseItems fuel (c0 :: (t0 ++ ']' :: rest)) = some (e2 :: es'', rest) := by
          rw [← List.cons_append, ← h0]; exact hq
        have hskip : skipWs (dumpsItems (e2 :: es'') ++ ']' :: rest) =
            c0 :: (t0 ++ ']' :: rest) :=
          skipWs_append_start _ c0 t0 h0 hs0.1
        simp [dumpsItems, parseItems, hp,
          skipWs_cons_of (by decide : wsChar ',' = false),
          skipWs_cons_ws (by decide : wsChar ' ' = true), hskip, hq']
    · intro k v kvs rest hfuel
      cases kvs with
      | nil =>
        have hmk : String.mk k.data = k := rfl
        have hlen : (dumpsL v).length < fuel := by
          simp only [dumpsMembers, dumpStr, List.length_append, List.length_cons] at hfuel
          omega
        obtain ⟨cv, tv, hv, hsv⟩ := dumps_start v
        have hp := P v ('\x7d' :: rest) hlen (nonDigitStart_cons (by decide))
        have hp' : parseVal fuel (cv :: (tv ++ '\x7d' :: rest)) = some (v, '\x7d' :: rest) := by
          rw [← List.cons_append, ← hv]; exact hp
        have hskipv : skipWs (dumpsL v ++ '\x7d' :: rest) = cv :: (tv ++ '\x7d' :: rest) :=
          skipWs_append_start _ cv tv hv hsv.1
        simp [dumpsMembers, dumpStr, parseMembers, parseStringBody_escape,
          skipWs_cons_of (by decide : wsChar ':' = false),
          skipWs_cons_ws (by decide : wsChar ' ' = true),
          skipWs_cons_of (by decide : wsChar '\x7d' = false), hskipv, hp', hmk]
      | cons kv2 kvs'' =>
        obtain ⟨k2, v2⟩ := kv2
        have hmk : String.mk k.data = k := rfl
        have hlenV : (dumpsL v).length < fuel := by
          simp only [dumpsMembers, dumpStr, List.length_append, List.length_cons] at hfuel
          omega
        have hfuel' : (dumpsMembers ((k2, v2) :: kvs'')).length + 2 ≤ fuel := by
          simp only [dumpsMembers, dumpStr, List.length_append, List.length_cons] at hfuel
          omega
        obtain ⟨cv, tv, hv, hsv⟩ := dumps_start v
        obtain ⟨t0, h0⟩ := dumpsMembers_start k2 v2 kvs''
        have hp := P v (',' :: ' ' :: (dumpsMembers ((k2, v2) :: kvs'') ++ '\x7d' :: rest))
          hlenV (nonDigitStart_cons (by decide))
        have hp' : parseVal fuel
            (cv :: (tv ++ ',' :: ' ' :: (dumpsMembers ((k2, v2) :: kvs'') ++ '\x7d' :: rest))) =
            some (v, ',' :: ' ' :: (dumpsMembers ((k2, v2) :: kvs'') ++ '\x7d' :: rest)) := by
          rw [← List.cons_append, ← hv]; exact hp
        have hskipv : skipWs (dumpsL v ++
            ',' :: ' ' :: (dumpsMembers ((k2, v2) :: kvs'') ++ '\x7d' :: rest)) =
            cv :: (tv ++ ',' :: ' ' :: (dumpsMembers ((k2, v2) :: kvs'') ++ '\x7d' :: rest)) :=
          skipWs_append_start _ cv tv hv hsv.1
        have hr := R k2 v2 kvs'' rest hfuel'
        have hr' : parseMembers fuel ('"' :: (t0 ++ '\x7d' :: rest)) =
            some ((k2, v2) :: kvs'', rest) := by
          rw [← List.cons_append, ← h0]; exact hr
        have hskipm : skipWs (dumpsMembers ((k2, v2) :: kvs'') ++ '\x7d' :: rest) =
            '"' :: (t0 ++ '\x7d' :: rest) :=
          skipWs_append_start _ '"' t0 h0 (by decide)
        simp [dumpsMembers, dumpStr, parseMembers, parseStringBody_escape,
          skipWs_cons_of (by decide : wsChar ':' = false),
          skipWs_cons_of (by decide : wsChar ',' = false),
          skipWs_cons_ws (by decide : wsChar ' ' = true), hskipv, hp', hskipm, hr', hmk]

theorem jsonLoads_dumps (m : Json) : jsonLoads (String.mk (dumpsL m)) = some m := by
  obtain ⟨c, t, hct, hs⟩ := dumps_start m
  have hskip : skipWs (dumpsL m) = dumpsL m := by
    rw [hct, skipWs_cons_of hs.1]
  have hp := (parse_dumps_round ((dumpsL m).length + 1)).1 m [] (by omega) nonDigitStart_nil
  rw [List.append_nil] at hp
  simp only [jsonLoads, hskip, hp]
  rfl

theorem listStartsWith_append : ∀ (p x : List Char), listStartsWith p (p ++ x) = true := by
  intro p
  induction p with
  | nil => intro x; rfl
  | cons c p ih => intro x; simp [listStartsWith, ih]

theorem splitHeader_exact : ∀ (h rest : List Char), '\r' ∉ h →
    splitHeader (h ++ '\r' :: '\n' :: '\r' :: '\n' :: rest) = some (h, rest) := by
  intro h
  induction h with
  | nil =>
    intro rest _
    simp [splitHeader, listStartsWith]
  | cons c h ih =>
    intro rest hmem
    have hc : c ≠ '\r' := by
      intro e
      exact hmem (by simp [e])
    have ih' := ih rest (fun m => hmem (by simp [m]))
    simp [splitHeader, hc, ih']

theorem linesCRLF_noCR : ∀ (fuel : Nat) (h : List Char), h.length < fuel → '\r' ∉ h →
    linesCRLF fuel h = [h] := by
  intro fuel
  induction fuel with
  | zero => intro h hl _; omega
  | succ fuel ih =>
    intro h hl hmem
    cases h with
    | nil => rfl
    | cons c cs =>
      have hc : c ≠ '\r' := by
        intro e
        exact hmem (by simp [e])
      have ih' := ih cs (by simp at hl; omega) (fun m => hmem (by simp [m]))
      simp [linesCRLF, hc, ih']

theorem digit_ne_colon {c : Char} (h : isDigitChar c = true) : (!(c == ':')) = true := by
  have : c ≠ ':' := by rintro rfl; exact absurd h (by decide)
  simp [this]

theorem pyStrip_space_digits (n : Nat) : pyStrip (' ' :: natDigits n) = natDigits n := by
  obtain ⟨d, t, hdt⟩ := List.exists_cons_of_ne_nil (natDigits_ne_nil n)
  have hd : isDigitChar d = true := by
    apply natDigits_digits
    rw [hdt]; simp
  have hdrop : List.dropWhile wsChar (natDigits n) = natDigits n := by
    rw [hdt, List.dropWhile_cons]
    simp [not_ws_of_digit hd]
  have hrevne : (natDigits n).reverse ≠ [] := by
    simp [natDigits_ne_nil n]
  obtain ⟨d2, t2, hdt2⟩ := List.exists_cons_of_ne_nil hrevne
  have hd2 : isDigitChar d2 = true := by
    apply natDigits_digits n
    rw [← List.mem_reverse, hdt2]
    simp
  have hrev : List.dropWhile wsChar (natDigits n).reverse = (natDigits n).reverse := by
    rw [hdt2, List.dropWhile_cons]
    simp [not_ws_of_digit hd2]
  simp only [pyStrip, List.dropWhile_cons]
  rw [show wsChar ' ' = true from rfl]
  simp only [if_true, hdrop, hrev, List.reverse_reverse]

theorem pyParseNat_digits (n : Nat) : pyParseNat (natDigits n) = some n := by
  have hne : natDigits n ≠ [] := natDigits_ne_nil n
  have hall : (natDigits n).all isDigitChar = true := by
    rw [List.all_eq_true]
    exact natDigits_digits n
  simp [pyParseNat, hne, hall, valOfDigits_natDigits]

theorem contentLengthOf_header (n : Nat) :
    contentLengthOf ("Content-Length: ".data ++ natDigits n) = some n := by
  have hnoCR : '\r' ∉ "Content-Length: ".data ++ natDigits n := by
    intro hmem
    rcases List.mem_append.mp hmem with hmem | hmem
    · exact absurd hmem (by decide)
    · have := natDigits_digits n _ hmem
      exact absurd this (by decide)
  have hlines : pyLines ("Content-Length: ".data ++ natDigits n) =
      ["Content-Length: ".data ++ natDigits n] :=
    linesCRLF_noCR _ _ (by omega) hnoCR
  have hsplit : "Content-Length: ".data ++ natDigits n =
      "Content-Length:".data ++ (' ' :: natDigits n) := rfl
  have hstarts : listStartsWith ("Content-Length:".data)
      ("Content-Length: ".data ++ natDigits n) = true := by
    rw [hsplit]
    exact listStartsWith_append _ _
  have htw : (natDigits n).takeWhile (fun d => !(d == ':')) = natDigits n := by
    have h := takeWhile_append_all (p := fun d => !(d == ':')) (natDigits n) []
      (fun c hc => digit_ne_colon (natDigits_digits n c hc)) (by intro c h; cases h)
    rw [List.append_nil] at h
    exact h.1
  have hcolon : splitColon1 ("Content-Length: ".data ++ natDigits n) =
      some (' ' :: natDigits n) := by
    have h0 : splitColon1 ("Content-Length: ".data ++ natDigits n) =
        some (' ' :: ((natDigits n).takeWhile fun d => !(d == ':'))) := rfl
    rw [h0, htw]
  simp only [contentLengthOf, hlines, findCL, hstarts, if_true, hcolon,
    pyStrip_space_digits, pyParseNat_digits]

theorem header_noCR (n : Nat) : '\r' ∉ "Content-Length: ".data ++ natDigits n := by
  intro hmem
  rcases List.mem_append.mp hmem with hmem | hmem
  · exact absurd hmem (by decide)
  · have := natDigits_digits n _ hmem
    exact absurd this (by decide)

/-- Decoding an encoded frame from the front of the stream recovers exactly
the serialized message and leaves the rest of the stream untouched. -/
theorem decodeFrame_encode (m : Json) (extra : List Char) :
    decodeFrame (encodeMessage m ++ extra) = some (m, extra) := by
  have hbuf : encodeMessage m ++ extra =
      ("Content-Length: ".data ++ natDigits (dumpsL m).length) ++
        ('\r' :: '\n' :: '\r' :: '\n' :: (dumpsL m ++ extra)) := by
    simp [encodeMessage]
  have hsplit := splitHeader_exact ("Content-Length: ".data ++ natDigits (dumpsL m).length)
    (dumpsL m ++ extra) (header_noCR _)
  have hlen : (dumpsL m).length ≤ (dumpsL m ++ extra).length := by simp
  have htake : (dumpsL m ++ extra).take (dumpsL m).length = dumpsL m :=
    List.take_left _ _
  have hdropx : (dumpsL m ++ extra).drop (dumpsL m).length = extra :=
    List.drop_left _ _
  have hclh : contentLengthOf
      (['C', 'o', 'n', 't', 'e', 'n', 't', '-', 'L', 'e', 'n', 'g', 't', 'h', ':', ' '] ++
        natDigits (dumpsL m).length) = some (dumpsL m).length :=
    contentLengthOf_header _
  rw [hbuf]
  simp only [decodeFrame, hsplit, contentLengthOf_header, hclh, if_pos hlen, htake, hdropx,
    jsonLoads_dumps]

/-!
## Claims
-/

theorem lookup_dictSet {α : Type} : ∀ (d : List (String × α)) (k : String) (v : α),
    (dictSet d k v).lookup k = some v := by
  intro d k v
  induction d with
  | nil => simp [dictSet, List.lookup]
  | cons kv rest ih =>
    obtain ⟨k', v'⟩ := kv
    by_cases h : k' = k
    · subst h
      simp [dictSet, List.lookup]
    · have hbeq : (k == k') = false := by
        simp
        intro he
        exact absurd he.symm h
      simp [dictSet, h, List.lookup, hbeq, ih]

/-- C1 (amended): `MCPClient._wait_for_response` matches the response by
id, not by arrival order: if the queue holds non-matching responses ahead
of the one whose id equals the awaited `n`, the matching response is
returned and every non-matching response is retained (re-enqueued) for its
own waiter rather than dropped. -/
theorem C1_wait_matches_by_id : ∀ (pre : List Json) (r : Json) (post : List Json)
    (n : Int) (fuel : Nat),
    (∀ x ∈ pre, matchesId x n = false) → matchesId r n = true → pre.length < fuel →
    waitForResponse fuel (pre ++ r :: post) n = some (r, post ++ pre) := by
  intro pre
  induction pre with
  | nil =>
    intro r post n fuel _ hr hf
    cases fuel with
    | zero => omega
    | succ fuel => simp [waitForResponse, hr]
  | cons a pre ih =>
    intro r post n fuel hpre hr hf
    cases fuel with
    | zero => omega
    | succ fuel =>
      have ha : matchesId a n = false := hpre a (by simp)
      have hrec := ih r (post ++ [a]) n fuel
        (fun x hx => hpre x (by simp [hx])) hr (by simp at hf ⊢; omega)
      have hstep : waitForResponse (fuel + 1) ((a :: pre) ++ r :: post) n
          = waitForResponse fuel ((pre ++ r :: post) ++ [a]) n := by
        simp [waitForResponse, ha]
      have e1 : (pre ++ r :: post) ++ [a] = pre ++ r :: (post ++ [a]) := by simp
      have e2 : (post ++ [a]) ++ pre = post ++ a :: pre := by simp
      rw [hstep, e1, hrec, e2]

theorem C1_wait_matches_by_id_witness :
    matchesId (.obj [("id", .int 99), ("result", .str "early")]) 1 = false ∧
    matchesId (.obj [("id", .int 1), ("result", .str "right")]) 1 = true ∧
    waitForResponse 2
      [.obj [("id", .int 99), ("result", .str "early")],
       .obj [("id", .int 1), ("result", .str "right")]] 1 =
      some (.obj [("id", .int 1), ("result", .str "right")],
            [.obj [("id", .int 99), ("result", .str "early")]]) := by
  refine ⟨rfl, rfl, ?_⟩
  have hpre : ∀ x ∈ [Json.obj [("id", .int 99), ("result", .str "early")]],
      matchesId x 1 = false := by
    intro x hx
    rw [List.mem_singleton] at hx
    subst hx
    rfl
  have h := C1_wait_matches_by_id [.obj [("id", .int 99), ("result", .str "early")]]
    (.obj [("id", .int 1), ("result", .str "right")]) [] 1 2 hpre rfl (by decide)
  simpa using h

/-- C1 (counterexample): `StdioMCPClient._send_request` returns whatever
response line arrives next, never comparing its id with the request id —
for request id 1, a first-arriving response with id 99 is returned as the
answer instead of the id-1 response that follows it. -/
theorem C1_counterexample :
    stdioReadResult 1
      ["\x7b\"jsonrpc\": \"2.0\", \"id\": 99, \"result\": \"wrong\"\x7d",
       "\x7b\"jsonrpc\": \"2.0\", \"id\": 1, \"result\": \"right\"\x7d"] =
      .ok (some (.str "wrong")) ∧
    stdioReadResult 1
      ["\x7b\"jsonrpc\": \"2.0\", \"id\": 1, \"result\": \"right\"\x7d"] =
      .ok (some (.str "right")) ∧
    Json.str "wrong" ≠ Json.str "right" := by
  refine ⟨rfl, rfl, ?_⟩
  intro h
  injection h with h2
  exact absurd h2 (by decide)

/-- C2: for every JSON-RPC request envelope `(id, method, params)`,
encoding it into a Content-Length frame (`MCPClient._send_message`) and
decoding that frame back from the stream (the frame step of
`MCPClient._read_stdout`) yields the original JSON-RPC object, leaving any
following stream bytes untouched. -/
theorem C2_frame_roundtrip (rid : Int) (method : String) (params : Json)
    (extra : List Char) :
    decodeFrame (encodeMessage (rpcRequest rid method params) ++ extra) =
      some (rpcRequest rid method params, extra) :=
  decodeFrame_encode _ _

example : decodeFrame (encodeMessage (rpcRequest 3 "tools/list" (.obj [])) ++ []) =
    some (rpcRequest 3 "tools/list" (.obj []), []) := by rfl

theorem fastmcpParts_texts : ∀ ts : List String,
    fastmcpParts (ts.map fun t => Json.obj [("text", .str t)]) = some ts := by
  intro ts
  induction ts with
  | nil => rfl
  | cons t ts ih => simp [fastmcpParts, fastmcpBlockPart, List.lookup, ih]

/-- C3 (amended): for a `content` list of text blocks,
`FastMCPClient._normalize_result` concatenates the `text` of every block
in list order joined by newlines, while `HTTPMCPClient._process_result`
returns only the first block's `text`. -/
theorem C3_content_join (t : String) (ts : List String) :
    fastmcpNormalize (.content ((t :: ts).map fun x => Json.obj [("text", .str x)])) =
      some (joinNL (t :: ts)) ∧
    httpProcessResult
        (.obj [("content", .arr ((t :: ts).map fun x => Json.obj [("text", .str x)]))]) =
      some t := by
  constructor
  · have h := fastmcpParts_texts (t :: ts)
    simp only [List.map_cons] at h ⊢
    simp [fastmcpNormalize, h]
  · rfl

/-- C3 (counterexample): at the claim's own example input
`[{"text": "a"}, {"text": "b"}]`, the HTTP client's normalization returns
`"a"`, not the claimed `"a\nb"`. -/
theorem C3_counterexample :
    httpProcessResult
        (.obj [("content", .arr [.obj [("text", .str "a")], .obj [("text", .str "b")]])]) =
      some "a" ∧
    fastmcpNormalize (.content [.obj [("text", .str "a")], .obj [("text", .str "b")]]) =
      some "a\nb" ∧
    ("a" : String) ≠ "a\nb" := by
  exact ⟨rfl, rfl, by decide⟩

/-- C4: dispatching to an unregistered server name yields the
unknown-server error (surfaced, like every router-boundary failure, as the
textual result `"Unknown server: ..."`) and forwards nothing to any
client — the recorded I/O trace is empty. -/
theorem C4_unknown_server_no_io (mcps : List (String × Client)) (server tool : String)
    (params : List (String × Json)) (h : mcps.lookup server = none) :
    callMCPTool mcps server tool params = ("Unknown server: " ++ server, []) := by
  simp [callMCPTool, h]

theorem C4_unknown_server_no_io_witness :
    ([] : List (String × Client)).lookup "files" = none ∧
    callMCPTool [] "files" "read" [] = ("Unknown server: files", []) :=
  ⟨rfl, C4_unknown_server_no_io [] "files" "read" [] rfl⟩

/-- C5: when a registered client's `call_tool` raises, `call_mcp_tool`
catches the exception and returns the textual result
`"Error calling server:tool: ..."` instead of propagating it — the
dispatch function is total and a tool failure cannot crash the
orchestrator. -/
theorem C5_tool_error_to_text (mcps : List (String × Client)) (server tool : String)
    (params : List (String × Json)) (c : Client) (e : String)
    (hc : mcps.lookup server = some c) (he : c tool params = .error e) :
    callMCPTool mcps server tool params =
      ("Error calling " ++ server ++ ":" ++ tool ++ ": " ++ e, [(server, tool)]) := by
  simp [callMCPTool, hc, he]

theorem C5_tool_error_to_text_witness :
    ([("files", errClient)] : List (String × Client)).lookup "files" = some errClient ∧
    errClient "read" [] = .error "boom" ∧
    callMCPTool [("files", errClient)] "files" "read" [] =
      ("Error calling files:read: boom", [("files", "read")]) :=
  ⟨rfl, rfl, C5_tool_error_to_text [("files", errClient)] "files" "read" [] errClient
    "boom" rfl rfl⟩

/-- C6 (counterexample): on the invalid-UTF-8 bytes `b"caf\xe9"`,
normalization returns `"caf"` — the undecodable byte is dropped
(`errors="ignore"`), not replaced with U+FFFD as the claim states. -/
theorem C6_counterexample :
    fastmcpNormalize (.bytes [0x63, 0x61, 0x66, 0xE9]) = some "caf" ∧
    Char.ofNat 0xFFFD ∉ "caf".data := by
  exact ⟨rfl, by decide⟩

/-- C6 (amended): normalizing raw bytes never fails — every byte list
yields a string — and undecodable bytes are silently dropped, as on
`b"caf\xe9"`, which normalizes to `"caf"`. -/
theorem C6_bytes_ignore (bs : List Nat) :
    (∃ s, fastmcpNormalize (.bytes bs) = some s) ∧
    fastmcpNormalize (.bytes [0x63, 0x61, 0x66, 0xE9]) = some "caf" :=
  ⟨⟨_, rfl⟩, rfl⟩

/-- C7 (amended): `MCPClient.initialize` is idempotent — when
`_initialized` is already set it returns `True` immediately, sending no
request and leaving the state (id counter, sent log, flag) unchanged. -/
theorem C7_mcpclient_idempotent (s : MState) (response : Except String Json)
    (h : s.initializedFlag = true) :
    mcpClientInit s response = (s, true) := by
  simp [mcpClientInit, h]

theorem C7_mcpclient_idempotent_witness :
    (MState.mk true 5 []).initializedFlag = true ∧
    mcpClientInit (MState.mk true 5 []) (.error "timeout") = (MState.mk true 5 [], true) :=
  ⟨rfl, C7_mcpclient_idempotent (MState.mk true 5 []) (.error "timeout") rfl⟩

/-- C7 (counterexample): calling `StdioMCPClient.initialize` a second time
is not a no-op — it spawns a second subprocess and re-sends the
`initialize` and `tools/list` requests. -/
theorem C7_counterexample :
    (stdioClientInit (stdioClientInit ⟨0, 1, []⟩)).spawns = 2 ∧
    (stdioClientInit (stdioClientInit ⟨0, 1, []⟩)).sentMethods =
      ["initialize", "tools/list", "initialize", "tools/list"] ∧
    (stdioClientInit (stdioClientInit ⟨0, 1, []⟩)).spawns ≠
      (stdioClientInit ⟨0, 1, []⟩).spawns := by
  exact ⟨rfl, rfl, by decide⟩

/-- C8 (amended): `StdioMCPClient.close` follows grace-then-force — it
requests termination, waits a bounded 5-second grace period, and
force-kills on timeout, never waiting unboundedly on an unkilled process —
whereas `MCPClient.close` terminates and then waits unboundedly with no
kill fallback. -/
theorem C8_close_policy :
    (∀ b, graceThenForce (stdioClose b) = true) ∧ graceThenForce mcpClose = false := by
  constructor
  · intro b
    cases b <;> rfl
  · rfl

/-- C8 (counterexample): `MCPClient.close` never force-kills and contains
an unbounded wait, so on a process that ignores termination it blocks
indefinitely — the grace-then-force claim fails for it. -/
theorem C8_counterexample :
    CloseAction.kill ∉ mcpClose ∧ CloseAction.waitUnbounded ∈ mcpClose ∧
    graceThenForce mcpClose = false := by decide

/-- C9 (amended): registering a client under an already-registered name
silently replaces the earlier client (Python dict assignment, last wins);
no duplicate check exists and nothing fails. -/
theorem C9_register_last_wins {α : Type} (mcps : List (String × α)) (name : String)
    (client : α) :
    (loadSingleMCP mcps name client).lookup name = some client :=
  lookup_dictSet mcps name client

/-- C9 (counterexample): loading two clients under the same name succeeds
and leaves the second client active — the first registration is replaced,
no `DuplicateServerError` exists in the code. -/
theorem C9_counterexample :
    loadSingleMCP (loadSingleMCP ([] : List (String × Nat)) "srv" 1) "srv" 2 =
      [("srv", 2)] ∧
    (loadSingleMCP (loadSingleMCP ([] : List (String × Nat)) "srv" 1) "srv" 2).lookup
      "srv" ≠ some 1 := by decide

/-- C10: a tool result longer than `MAX_RESULT_LENGTH` (500) characters is
truncated to its first 500 characters with `"..."` appended (503
characters total); a result of at most 500 characters is passed through
unchanged. -/
theorem C10_truncation (toolResult : List Char) :
    (toolResult.length ≤ MAX_RESULT_LENGTH → truncateToolResult toolResult = toolResult) ∧
    (MAX_RESULT_LENGTH < toolResult.length →
      truncateToolResult toolResult = toolResult.take MAX_RESULT_LENGTH ++ "...".data ∧
      (truncateToolResult toolResult).length = MAX_RESULT_LENGTH + 3) := by
  constructor
  · intro h
    simp [truncateToolResult, show ¬ MAX_RESULT_LENGTH < toolResult.length by omega]
  · intro h
    refine ⟨by simp [truncateToolResult, h], ?_⟩
    simp only [truncateToolResult, if_pos h, List.length_append, List.length_take]
    simp [MAX_RESULT_LENGTH] at h ⊢
    omega

theorem C10_truncation_witness :
    truncateToolResult (List.replicate 501 'a') =
      List.replicate 500 'a' ++ "...".data ∧
    truncateToolResult "ok".data = "ok".data := by
  have h1 := (C10_truncation (List.replicate 501 'a')).2
    (by rw [List.length_replicate]; norm_num [MAX_RESULT_LENGTH])
  have h2 := (C10_truncation "ok".data).1 (by decide)
  refine ⟨?_, h2⟩
  rw [h1.1, List.take_replicate]
  norm_num [MAX_RESULT_LENGTH]
